import Mathlib

/-!
Verification of the Brian2 example notebooks: a Hodgkin-Huxley axon
bisection experiment over 100 axon segments, and a three-neuron pyloric
circuit model.  The numerical integration of the differential equations is
performed by the external simulation library; it is modelled here as an
abstract count oracle giving, for each axon segment, the number of spikes
recorded by the spike monitor in a 20 ms run that starts from the stored
network state with the membrane potential set to a given value.  Voltages
are in mV, conductance densities in mS per square cm; all values that the
notebook manipulates directly (initial estimate 25 mV, step 25 mV and its
successive halvings) are dyadic rationals, represented exactly by both the
notebook floats and the rationals used here.
-/

namespace Bisection

/-- Maximal sodium channel density, 100 mS per square cm (source constant
gNa_max). -/
def gNa_max : ℚ := 100

/-- Minimal sodium channel density, 15 mS per square cm (source constant
gNa_min). -/
def gNa_min : ℚ := 15

/-- Channel density of axon segment i, from the source assignment
axon.gNa = gNa_min + (gNa_max - gNa_min)*1.0*i/N with N = 100. -/
def axonGNa (i : Fin 100) : ℚ := gNa_min + (gNa_max - gNa_min) * (i.val : ℚ) / 100

/-- State of the bisection loop: the per-segment threshold estimates v0,
the correction step, and the 11 x 100 estimates array (None models the
np.nan entries that have not been assigned yet). -/
structure BisectionState where
  v0 : Fin 100 → ℚ
  step : ℚ
  estimates : Fin 11 → Fin 100 → Option ℚ

/-- Initial loop state: v0 = 25*mV*ones(100), step = 25*mV, estimates
filled with nan except row 0 which is set to v0.  The initial estimate
vector is kept as a parameter u so that sensitivity to it can be stated;
the notebook uses the constant vector 25. -/
def initStateGen (u : Fin 100 → ℚ) : BisectionState where
  v0 := u
  step := 25
  estimates := fun r c => if r.val = 0 then some (u c) else none

/-- One iteration of the bisection loop (loop body of the source).  The
parameter count abstracts the library simulation: count g v is the spike
monitor count of a segment with channel density g after restore();
axon.v = v0; run(20*ms).  The segments are simulated independently by the
library (the group has no synapses and each equation refers only to the
variables of its own neuron), so the count of segment j depends only on
its density g j and its stored initial value v0 j.  The two masked
assignments v0[S.count > 0] -= step and v0[S.count == 0] += step are
applied in source order, the second reading the array produced by the
first; then step /= 2.0 and estimates[k + 1, :] = v0. -/
def bodyStep (count : ℚ → ℚ → ℕ) (g : Fin 100 → ℚ) (k : ℕ)
    (st : BisectionState) : BisectionState :=
  let cnt : Fin 100 → ℕ := fun j => count (g j) (st.v0 j)
  let v1 : Fin 100 → ℚ := fun j => if 0 < cnt j then st.v0 j - st.step else st.v0 j
  let v2 : Fin 100 → ℚ := fun j => if cnt j = 0 then v1 j + st.step else v1 j
  { v0 := v2
    step := st.step / 2
    estimates := fun r c => if r.val = k + 1 then some (v2 c) else st.estimates r c }

/-- Loop state after k iterations, generalized over the density vector g
and the initial estimate vector u. -/
def afterIterGen (count : ℚ → ℚ → ℕ) (g : Fin 100 → ℚ) (u : Fin 100 → ℚ) :
    ℕ → BisectionState
  | 0 => initStateGen u
  | k + 1 => bodyStep count g k (afterIterGen count g u k)

/-- Loop state after k iterations of the notebook program itself: density
vector axonGNa, all initial estimates 25 mV. -/
def afterIter (count : ℚ → ℚ → ℕ) (k : ℕ) : BisectionState :=
  afterIterGen count axonGNa (fun _ => 25) k

/-- Per-segment recurrence extracted from the loop: starting estimate u,
the k-th correction has magnitude 25 / 2 ^ k and is subtracted when the
segment spikes at the current estimate, added otherwise. -/
def bisectFrom (spike : ℚ → Bool) (u : ℚ) : ℕ → ℚ
  | 0 => u
  | k + 1 =>
    if spike (bisectFrom spike u k) then bisectFrom spike u k - 25 / 2 ^ k
    else bisectFrom spike u k + 25 / 2 ^ k

theorem afterIterGen_step (count : ℚ → ℚ → ℕ) (g u : Fin 100 → ℚ) :
    ∀ k : ℕ, (afterIterGen count g u k).step = 25 / 2 ^ k := by
  intro k
  induction k with
  | zero => simp [afterIterGen, initStateGen]
  | succ k ih =>
    simp only [afterIterGen, bodyStep, ih, pow_succ]
    rw [div_div]

theorem afterIterGen_v0 (count : ℚ → ℚ → ℕ) (g u : Fin 100 → ℚ) (j : Fin 100) :
    ∀ k : ℕ, (afterIterGen count g u k).v0 j
      = bisectFrom (fun v => decide (0 < count (g j) v)) (u j) k := by
  intro k
  induction k with
  | zero => simp [afterIterGen, initStateGen, bisectFrom]
  | succ k ih =>
    simp only [afterIterGen, bodyStep, bisectFrom, ← ih,
      afterIterGen_step count g u k]
    by_cases h : 0 < count (g j) ((afterIterGen count g u k).v0 j)
    · have hne : count (g j) ((afterIterGen count g u k).v0 j) ≠ 0 :=
        Nat.pos_iff_ne_zero.mp h
      simp [h, hne]
    · have hz : count (g j) ((afterIterGen count g u k).v0 j) = 0 :=
        Nat.eq_zero_of_not_pos h
      simp [h, hz]

theorem bisectFrom_bounds (spike : ℚ → Bool) :
    ∀ k : ℕ, 25 - (50 - 50 / 2 ^ k) ≤ bisectFrom spike 25 k ∧
      bisectFrom spike 25 k ≤ 25 + (50 - 50 / 2 ^ k) := by
  intro k
  induction k with
  | zero => norm_num [bisectFrom]
  | succ k ih =>
    have hs : (0 : ℚ) < 25 / 2 ^ k := by positivity
    have h2 : (50 : ℚ) / 2 ^ (k + 1) = 25 / 2 ^ k := by
      rw [pow_succ, div_mul_eq_div_div]
      ring
    have h3 : (50 : ℚ) / 2 ^ k = 2 * (25 / 2 ^ k) := by ring
    obtain ⟨ih1, ih2⟩ := ih
    simp only [bisectFrom]
    by_cases h : spike (bisectFrom spike 25 k) = true
    · rw [if_pos h, h2]
      constructor <;> linarith
    · rw [if_neg h, h2]
      constructor <;> linarith

/-- Sign of the k-th correction applied to the estimate of a segment with
spike oracle spike: -1 when the segment spiked at the current estimate,
+1 otherwise. -/
def epsSeq (spike : ℚ → Bool) (t : ℕ) : ℚ :=
  if spike (bisectFrom spike 25 t) then -1 else 1

theorem epsSeq_cases (spike : ℚ → Bool) (t : ℕ) :
    epsSeq spike t = -1 ∨ epsSeq spike t = 1 := by
  unfold epsSeq
  by_cases h : spike (bisectFrom spike 25 t) = true
  · exact Or.inl (if_pos h)
  · exact Or.inr (if_neg h)

theorem epsSeq_eq_neg_one_iff (spike : ℚ → Bool) (t : ℕ) :
    epsSeq spike t = -1 ↔ spike (bisectFrom spike 25 t) = true := by
  unfold epsSeq
  by_cases h : spike (bisectFrom spike 25 t) = true
  · rw [if_pos h]
    exact iff_of_true rfl h
  · rw [if_neg h]
    exact iff_of_false (by norm_num) h

theorem bisectFrom_eq_signed_sum (spike : ℚ → Bool) :
    ∀ k : ℕ, bisectFrom spike 25 k
      = 25 + (Finset.range k).sum (fun t => epsSeq spike t * (25 / 2 ^ t)) := by
  intro k
  induction k with
  | zero => simp [bisectFrom]
  | succ k ih =>
    rw [Finset.sum_range_succ, ← add_assoc, ← ih]
    simp only [bisectFrom, epsSeq]
    by_cases h : spike (bisectFrom spike 25 k) = true
    · rw [if_pos h, if_pos h]
      ring
    · rw [if_neg h, if_neg h]
      ring

theorem bisectFrom_error (spike : ℚ → Bool) (vstar : ℚ)
    (hthr : ∀ v : ℚ, spike v = true ↔ vstar < v)
    (hlo : -25 ≤ vstar) (hhi : vstar ≤ 75) :
    ∀ k : ℕ, |bisectFrom spike 25 k - vstar| ≤ 2 * (25 / 2 ^ k) := by
  intro k
  induction k with
  | zero =>
    rw [abs_le]
    norm_num [bisectFrom]
    constructor <;> linarith
  | succ k ih =>
    have h2 : 2 * ((25 : ℚ) / 2 ^ (k + 1)) = 25 / 2 ^ k := by
      rw [pow_succ, div_mul_eq_div_div]
      ring
    rw [abs_le] at ih
    rw [abs_le, h2]
    obtain ⟨ih1, ih2⟩ := ih
    simp only [bisectFrom]
    by_cases h : spike (bisectFrom spike 25 k) = true
    · have hgt : vstar < bisectFrom spike 25 k := (hthr _).mp h
      rw [if_pos h]
      constructor <;> linarith
    · have hle : bisectFrom spike 25 k ≤ vstar := by
        by_contra hc
        exact h ((hthr _).mpr (lt_of_not_le hc))
      rw [if_neg h]
      constructor <;> linarith

theorem afterIterGen_estimates (count : ℚ → ℚ → ℕ) (g u : Fin 100 → ℚ)
    (r : Fin 11) (c : Fin 100) :
    ∀ k : ℕ, (afterIterGen count g u k).estimates r c
      = if r.val ≤ k then some ((afterIterGen count g u r.val).v0 c) else none := by
  intro k
  induction k with
  | zero =>
    by_cases h : r.val = 0
    · simp [afterIterGen, initStateGen, h]
    · simp [afterIterGen, initStateGen, h, Nat.le_zero]
  | succ k ih =>
    show (bodyStep count g k (afterIterGen count g u k)).estimates r c = _
    by_cases h : r.val = k + 1
    · simp only [bodyStep, if_pos h, h]
      rw [if_pos (le_refl (k + 1))]
      rfl
    · simp only [bodyStep, if_neg h]
      rw [ih]
      by_cases h2 : r.val ≤ k
      · rw [if_pos h2, if_pos (by omega : r.val ≤ k + 1)]
      · rw [if_neg h2, if_neg (by omega : ¬ r.val ≤ k + 1)]

/-! ### Machine model of the notebook script

The store and restore primitives and the side effects of the loop on the
library network are modelled by a small instruction machine.  The hidden
part of the network state (gating variables, clock, monitor internals) is
an abstract type rho; a network state consists of that hidden part, the
membrane potentials, and the spike monitor counts; the run primitive is an
abstract function on network states. -/

/-- A Brian network state: hidden part, membrane potentials of the 100
segments, spike monitor counts. -/
structure Net (ρ : Type) where
  rest : ρ
  v : Fin 100 → ℚ
  counts : Fin 100 → ℕ

/-- Full state of the notebook execution: live network state, the snapshot
taken by store() if any, plus the local Python variables v0, step,
estimates. -/
structure Exec (ρ : Type) where
  net : Net ρ
  saved : Option (Net ρ)
  v0 : Fin 100 → ℚ
  step : ℚ
  estimates : Fin 11 → Fin 100 → Option ℚ

/-- The statements of the notebook that touch state, in machine form.
record i is the assignment estimates[i + 1, :] = v0; maskDec and maskInc
are the two masked updates of v0 from the monitor counts. -/
inductive Instr where
  | store
  | restore
  | setV
  | runSim
  | maskDec
  | maskInc
  | halve
  | record (i : ℕ)
  deriving DecidableEq, BEq

/-- Effect of one statement.  restore() loads the snapshot (a no-op if
none was taken); run() applies the library simulation runF to the live
network. -/
def execInstr (runF : Net ρ → Net ρ) : Instr → Exec ρ → Exec ρ
  | Instr.store, e => { e with saved := some e.net }
  | Instr.restore, e => { e with net := e.saved.getD e.net }
  | Instr.setV, e => { e with net := { e.net with v := e.v0 } }
  | Instr.runSim, e => { e with net := runF e.net }
  | Instr.maskDec, e =>
    { e with v0 := fun j => if 0 < e.net.counts j then e.v0 j - e.step else e.v0 j }
  | Instr.maskInc, e =>
    { e with v0 := fun j => if e.net.counts j = 0 then e.v0 j + e.step else e.v0 j }
  | Instr.halve, e => { e with step := e.step / 2 }
  | Instr.record i, e =>
    { e with estimates := fun r c => if r.val = i + 1 then some (e.v0 c) else e.estimates r c }

/-- Sequential execution of a list of statements. -/
def execProg (runF : Net ρ → Net ρ) (p : List Instr) (e : Exec ρ) : Exec ρ :=
  p.foldl (fun a ins => execInstr runF ins a) e

/-- Body of the for-loop at index i, in source order: restore(), set the
membrane potential from v0, run the simulation, update v0 from the spike
counts (decrease then increase), halve the step, record the estimate. -/
def iterBlock (i : ℕ) : List Instr :=
  [Instr.restore, Instr.setV, Instr.runSim, Instr.maskDec, Instr.maskInc,
   Instr.halve, Instr.record i]

/-- The statement sequence of the notebook: one store(), then the ten loop
iterations. -/
def bisectionProg : List Instr :=
  Instr.store :: (List.range 10).flatMap iterBlock

/-- Execution of one loop body. -/
def runBlock (runF : Net ρ → Net ρ) (i : ℕ) (e : Exec ρ) : Exec ρ :=
  execProg runF (iterBlock i) e

/-- Machine state after the store() and k loop iterations. -/
def machineAfter (runF : Net ρ → Net ρ) (e0 : Exec ρ) : ℕ → Exec ρ
  | 0 => execInstr runF Instr.store e0
  | k + 1 => runBlock runF k (machineAfter runF e0 k)

theorem execProg_append (runF : Net ρ → Net ρ) (p q : List Instr) (e : Exec ρ) :
    execProg runF (p ++ q) e = execProg runF q (execProg runF p e) := by
  simp [execProg, List.foldl_append]

theorem machineAfter_eq_execProg (runF : Net ρ → Net ρ) (e0 : Exec ρ) :
    ∀ k : ℕ, machineAfter runF e0 k
      = execProg runF (Instr.store :: (List.range k).flatMap iterBlock) e0 := by
  intro k
  induction k with
  | zero => rfl
  | succ k ih =>
    have hsplit : (Instr.store :: (List.range (k + 1)).flatMap iterBlock)
        = (Instr.store :: (List.range k).flatMap iterBlock) ++ iterBlock k := by
      rw [List.range_succ, List.flatMap_append]
      simp
    rw [hsplit, execProg_append, ← ih]
    rfl

theorem runBlock_saved (runF : Net ρ → Net ρ) (i : ℕ) (e : Exec ρ) :
    (runBlock runF i e).saved = e.saved := rfl

theorem machineAfter_saved (runF : Net ρ → Net ρ) (e0 : Exec ρ) :
    ∀ k : ℕ, (machineAfter runF e0 k).saved = some e0.net := by
  intro k
  induction k with
  | zero => rfl
  | succ k ih => rw [machineAfter, runBlock_saved, ih]

theorem preRun_net (runF : Net ρ → Net ρ) (e : Exec ρ) (n : Net ρ)
    (hs : e.saved = some n) :
    (execProg runF [Instr.restore, Instr.setV] e).net = { n with v := e.v0 } := by
  simp [execProg, execInstr, hs]

theorem runBlock_congr (runF : Net ρ → Net ρ) (i : ℕ) (e e2 : Exec ρ) (n : Net ρ)
    (hs : e.saved = some n) (hs2 : e2.saved = some n)
    (hv : e.v0 = e2.v0) (hstep : e.step = e2.step) :
    (runBlock runF i e).v0 = (runBlock runF i e2).v0 ∧
    (runBlock runF i e).step = (runBlock runF i e2).step ∧
    (runBlock runF i e).net = (runBlock runF i e2).net := by
  simp only [runBlock, execProg, iterBlock, List.foldl_cons, List.foldl_nil,
    execInstr, hs, hs2, hv, hstep, Option.getD_some]
  exact ⟨trivial, trivial, trivial⟩

/-! ### Claim theorems for the bisection notebook -/

/-- Claim C2: the bisection search runs exactly 10 iterations (the script
contains exactly ten run statements), starts with step = 25 mV, and
immediately after the k-th iteration the step equals 25 / 2 ^ k mV, ending
at 25 / 1024 mV after the tenth iteration. -/
theorem step_halves_each_iteration (count : ℚ → ℚ → ℕ) (k : ℕ) :
    bisectionProg.count Instr.runSim = 10 ∧
    (afterIter count 0).step = 25 ∧
    (afterIter count k).step = 25 / 2 ^ k ∧
    (afterIter count 10).step = 25 / 1024 := by
  refine ⟨by decide, rfl, afterIterGen_step count axonGNa (fun _ => 25) k, ?_⟩
  rw [afterIter, afterIterGen_step]
  norm_num

/-- Claim C6: segment i is assigned density
gNa_min + (gNa_max - gNa_min) * i / 100 = 15 + 85 i / 100 mS per square
cm, which is strictly increasing in i, equal to 15 at i = 0 and to 99.15
at i = 99. -/
theorem gNa_strictly_increasing :
    (∀ i : Fin 100, axonGNa i = 15 + 85 * (i.val : ℚ) / 100) ∧
    (∀ i j : Fin 100, i < j → axonGNa i < axonGNa j) ∧
    axonGNa 0 = 15 ∧ axonGNa 99 = 9915 / 100 := by
  have hform : ∀ i : Fin 100, axonGNa i = 15 + 85 * (i.val : ℚ) / 100 := by
    intro i
    unfold axonGNa gNa_min gNa_max
    norm_num
  refine ⟨hform, ?_, ?_, ?_⟩
  · intro i j hij
    rw [hform i, hform j]
    have hc : (i.val : ℚ) < (j.val : ℚ) := by
      exact_mod_cast (Fin.lt_def.mp hij)
    linarith
  · rw [hform 0]
    norm_num
  · rw [hform 99, show (99 : Fin 100).val = 99 from rfl]
    norm_num

/-- Witness for claim C6: the first and last segments have the claimed
densities and the last is the larger. -/
theorem gNa_strictly_increasing_witness :
    Bisection.axonGNa 0 < Bisection.axonGNa 99 :=
  gNa_strictly_increasing.2.1 0 99 (by decide)

/-- Claim C5: in every iteration the spiked and silent masks partition the
segment indices; each estimate is updated exactly once per iteration and
changes by exactly the current step in magnitude, decreased by the step
when the segment spiked (its count is positive) and increased by the step
otherwise; after k iterations each estimate is 25 mV plus a signed sum of
the halved corrections 25 / 2 ^ t for t < k, the sign of the t-th term
being negative exactly when the segment spiked in iteration t; and all
estimates stay strictly inside the interval from -25 mV to 75 mV. -/
theorem mask_partition_estimate_invariants (count : ℚ → ℚ → ℕ) (k : ℕ)
    (j : Fin 100) :
    ((0 < count (axonGNa j) ((afterIter count k).v0 j) ∧
        ¬ count (axonGNa j) ((afterIter count k).v0 j) = 0) ∨
      (¬ 0 < count (axonGNa j) ((afterIter count k).v0 j) ∧
        count (axonGNa j) ((afterIter count k).v0 j) = 0)) ∧
    ((afterIter count (k + 1)).v0 j =
      if 0 < count (axonGNa j) ((afterIter count k).v0 j)
      then (afterIter count k).v0 j - (afterIter count k).step
      else (afterIter count k).v0 j + (afterIter count k).step) ∧
    |(afterIter count (k + 1)).v0 j - (afterIter count k).v0 j|
      = (afterIter count k).step ∧
    (∃ ε : ℕ → ℚ, (∀ t : ℕ, ε t = -1 ∨ ε t = 1) ∧
      (∀ t : ℕ, ε t = -1 ↔ 0 < count (axonGNa j) ((afterIter count t).v0 j)) ∧
      (afterIter count k).v0 j
        = 25 + (Finset.range k).sum (fun t => ε t * (25 / 2 ^ t))) ∧
    (-25 < (afterIter count k).v0 j ∧ (afterIter count k).v0 j < 75) := by
  have hv := afterIterGen_v0 count axonGNa (fun _ => 25) j k
  have hv1 := afterIterGen_v0 count axonGNa (fun _ => 25) j (k + 1)
  have hstep := afterIterGen_step count axonGNa (fun _ => 25) k
  have hpos : (0 : ℚ) < 25 / 2 ^ k := by positivity
  refine ⟨by omega, ?_, ?_, ?_, ?_⟩
  · simp only [afterIter]
    rw [hv, hv1, hstep]
    simp only [bisectFrom]
    by_cases h : 0 < count (axonGNa j)
        (bisectFrom (fun v => decide (0 < count (axonGNa j) v)) 25 k)
    · simp [h]
    · simp [h]
  · simp only [afterIter]
    rw [hv, hv1, hstep]
    simp only [bisectFrom]
    by_cases h : (fun v => decide (0 < count (axonGNa j) v))
        (bisectFrom (fun v => decide (0 < count (axonGNa j) v)) 25 k) = true
    · rw [if_pos h]
      rw [show ∀ b : ℚ, b - 25 / 2 ^ k - b = -(25 / 2 ^ k) by intro b; ring]
      rw [abs_neg, abs_of_pos hpos]
    · rw [if_neg h]
      rw [show ∀ b : ℚ, b + 25 / 2 ^ k - b = 25 / 2 ^ k by intro b; ring]
      rw [abs_of_pos hpos]
  · simp only [afterIter]
    rw [hv]
    refine ⟨epsSeq (fun v => decide (0 < count (axonGNa j) v)),
      epsSeq_cases _, fun t => ?_, bisectFrom_eq_signed_sum _ k⟩
    rw [epsSeq_eq_neg_one_iff]
    rw [afterIterGen_v0 count axonGNa (fun _ => 25) j t]
    simp
  · simp only [afterIter]
    rw [hv]
    have hb := bisectFrom_bounds (fun v => decide (0 < count (axonGNa j) v)) k
    have h50 : (0 : ℚ) < 50 / 2 ^ k := by positivity
    constructor <;> linarith [hb.1, hb.2]

/-- A count oracle gives a segment with density g the true spiking
threshold vstar when a run records a spike exactly for initial membrane
potentials above vstar. -/
def isThresholdFor (count : ℚ → ℚ → ℕ) (g vstar : ℚ) : Prop :=
  ∀ v : ℚ, 0 < count g v ↔ vstar < v

/-- Concrete count oracle for the counterexample to claim C1: every
segment spikes exactly when its initial potential exceeds 25 mV, so every
segment has true threshold 25 mV, the exact initial estimate. -/
def exCount : ℚ → ℚ → ℕ := fun _ v => if 25 < v then 1 else 0

/-- Counterexample to claim C1 as stated: with true threshold 25 mV
(exactly the initial estimate) the distance of the estimate of segment 0
to the threshold grows from 0 mV to 25 mV during the first iteration, so
the distance to the true threshold does not decrease monotonically. -/
theorem monotone_convergence_counterexample :
    isThresholdFor exCount (axonGNa 0) 25 ∧
    ¬ (|(afterIter exCount 1).v0 0 - 25| ≤ |(afterIter exCount 0).v0 0 - 25|) := by
  constructor
  · intro v
    unfold exCount
    by_cases h : (25 : ℚ) < v <;> simp [h]
  · have h0 : (afterIter exCount 0).v0 0 = 25 := rfl
    have h1 : (afterIter exCount 1).v0 0 = 50 := by
      rw [afterIter, afterIterGen_v0]
      norm_num [bisectFrom, exCount]
    rw [h0, h1]
    norm_num

/-- Claim C1 (amended): for a segment whose true spiking threshold vstar
lies between -25 mV and 75 mV, the bisection converges toward vstar with
the halving step, in the sense that after k iterations the estimate is
within twice the current step of vstar, that is within 2 * 25 / 2 ^ k mV;
the distance itself can transiently increase when the estimate overshoots
the threshold, so it is not monotonically non-increasing. -/
theorem threshold_error_bound (count : ℚ → ℚ → ℕ) (j : Fin 100) (vstar : ℚ)
    (hthr : isThresholdFor count (axonGNa j) vstar)
    (hlo : -25 ≤ vstar) (hhi : vstar ≤ 75) (k : ℕ) :
    |(afterIter count k).v0 j - vstar| ≤ 2 * (25 / 2 ^ k) := by
  rw [afterIter, afterIterGen_v0]
  refine bisectFrom_error _ vstar (fun v => ?_) hlo hhi k
  rw [decide_eq_true_iff]
  exact hthr v

/-- Concrete count oracle with true threshold 10 mV for every segment,
used to witness the amended claim C1. -/
def exCount10 : ℚ → ℚ → ℕ := fun _ v => if 10 < v then 1 else 0

/-- Witness for the amended claim C1: with true threshold 10 mV, after 3
iterations the estimate of segment 0 is within 2 * 25 / 8 mV of the
threshold. -/
theorem threshold_error_bound_witness :
    |(afterIter exCount10 3).v0 0 - 10| ≤ 2 * (25 / 2 ^ 3) :=
  threshold_error_bound exCount10 0 10
    (fun v => by unfold exCount10; by_cases h : (10 : ℚ) < v <;> simp [h])
    (by norm_num) (by norm_num) 3

/-- Claim C4: the conditions are independent.  The estimate sequence of
segment j is a function only of the channel density g j, the initial
estimate u j of that segment and the shared step schedule: running the
loop with density and initial-estimate vectors that agree at j produces
identical estimates at j, and the estimate at j equals the per-segment
recurrence applied to g j and u j alone. -/
theorem segment_independence (count : ℚ → ℚ → ℕ) (g1 g2 u1 u2 : Fin 100 → ℚ)
    (j : Fin 100) (hg : g1 j = g2 j) (hu : u1 j = u2 j) (k : ℕ) :
    (afterIterGen count g1 u1 k).v0 j = (afterIterGen count g2 u2 k).v0 j ∧
    (afterIterGen count g1 u1 k).v0 j
      = bisectFrom (fun v => decide (0 < count (g1 j) v)) (u1 j) k := by
  refine ⟨?_, afterIterGen_v0 count g1 u1 j k⟩
  rw [afterIterGen_v0, afterIterGen_v0, hg, hu]

/-- Density vector for the witness of claim C4: the density of segment 1
is changed to zero, every other segment keeps the notebook value. -/
def alteredGNa (i : Fin 100) : ℚ := if i = 1 then 0 else axonGNa i

/-- Witness for claim C4: zeroing the density of segment 1 leaves the
estimate of segment 0 after two iterations unchanged. -/
theorem segment_independence_witness :
    (afterIterGen exCount axonGNa (fun _ => 25) 2).v0 0
      = (afterIterGen exCount alteredGNa (fun _ => 25) 2).v0 0 ∧
    (afterIterGen exCount axonGNa (fun _ => 25) 2).v0 0
      = bisectFrom (fun v => decide (0 < exCount (axonGNa 0) v)) 25 2 :=
  segment_independence exCount axonGNa alteredGNa (fun _ => 25) (fun _ => 25) 0
    (by simp only [alteredGNa]; rw [if_neg (by decide)]) rfl 2

/-- Claim C9: after the ten iterations every entry of the 11 x 100
estimates array is assigned, row 0 holds the shared initial 25 mV
estimate, and row r holds exactly the estimates produced by iteration r:
for every k, row r of the array after k iterations is the estimate vector
after r iterations when r is at most k and still unassigned otherwise, so
each row is written exactly once, by the iteration it is named after. -/
theorem estimates_all_assigned (count : ℚ → ℚ → ℕ) :
    (∀ (r : Fin 11) (c : Fin 100) (k : ℕ),
      (afterIter count k).estimates r c
        = if r.val ≤ k then some ((afterIter count r.val).v0 c) else none) ∧
    (∀ (r : Fin 11) (c : Fin 100),
      ((afterIter count 10).estimates r c).isSome = true) ∧
    (∀ c : Fin 100, (afterIter count 10).estimates 0 c = some 25) := by
  refine ⟨fun r c k => afterIterGen_estimates count axonGNa (fun _ => 25) r c k,
    ?_, ?_⟩
  · intro r c
    rw [afterIter, afterIterGen_estimates]
    rw [if_pos (Nat.lt_succ_iff.mp r.isLt)]
    rfl
  · intro c
    rw [afterIter, afterIterGen_estimates]
    rfl

/-- Claim C3: the script stores the network state exactly once, as its
first state-touching statement; each loop iteration consists, in order, of
restore, set membrane potential, run, read counts into the two masked
updates, halve, record; the snapshot is the initial network state after
every number of iterations; the network state on which each run acts is
exactly the stored snapshot with the membrane potential replaced by the
current v0; and the effect of an iteration on v0 and step is a function of
the snapshot, v0 and step alone, not of the live network left behind by
the previous iteration. -/
theorem store_once_restore_each_iteration (ρ : Type) (runF : Net ρ → Net ρ)
    (e0 : Exec ρ) :
    (bisectionProg.count Instr.store = 1 ∧
      bisectionProg.head? = some Instr.store ∧
      (∀ i : ℕ, iterBlock i = [Instr.restore, Instr.setV, Instr.runSim,
        Instr.maskDec, Instr.maskInc, Instr.halve, Instr.record i])) ∧
    (∀ k : ℕ, (machineAfter runF e0 k).saved = some e0.net) ∧
    (∀ k : ℕ,
      (execProg runF [Instr.restore, Instr.setV] (machineAfter runF e0 k)).net
        = { e0.net with v := (machineAfter runF e0 k).v0 }) ∧
    (∀ (n : Net ρ) (e e2 : Exec ρ) (i : ℕ),
      e.saved = some n → e2.saved = some n → e.v0 = e2.v0 → e.step = e2.step →
      (runBlock runF i e).v0 = (runBlock runF i e2).v0 ∧
      (runBlock runF i e).step = (runBlock runF i e2).step) := by
  refine ⟨⟨by decide, rfl, fun i => rfl⟩, machineAfter_saved runF e0, ?_, ?_⟩
  · intro k
    exact preRun_net runF (machineAfter runF e0 k) e0.net
      (machineAfter_saved runF e0 k)
  · intro n e e2 i hs hs2 hv hstep
    exact ⟨(runBlock_congr runF i e e2 n hs hs2 hv hstep).1,
      (runBlock_congr runF i e e2 n hs hs2 hv hstep).2.1⟩

/-- Concrete network state used by the machine witnesses: hidden state
trivial, all potentials 0 mV, all monitor counts 0. -/
def wNet : Net Unit where
  rest := ()
  v := fun _ => 0
  counts := fun _ => 0

/-- Concrete initial execution state: live network wNet, no snapshot yet
taken by the program itself (the snapshot field is filled by store),
locals as in the notebook. -/
def wExec : Exec Unit where
  net := wNet
  saved := some wNet
  v0 := fun _ => 25
  step := 25
  estimates := fun r _ => if r.val = 0 then some 25 else none

/-- A second execution state agreeing with wExec on snapshot and locals
but holding a different live network. -/
def wExecB : Exec Unit where
  net := { rest := (), v := fun _ => 3, counts := fun _ => 7 }
  saved := some wNet
  v0 := fun _ => 25
  step := 25
  estimates := fun r _ => if r.val = 0 then some 25 else none

/-- Witness for claim C3: after three iterations the snapshot is still the
initial network, and two states with the same snapshot and locals but
different live networks produce the same estimates. -/
theorem store_once_restore_each_iteration_witness :
    (machineAfter (fun n => n) wExec 3).saved = some wExec.net ∧
    (runBlock (fun n => n) 0 wExec).v0 = (runBlock (fun n => n) 0 wExecB).v0 := by
  refine ⟨(store_once_restore_each_iteration Unit (fun n => n) wExec).2.1 3, ?_⟩
  exact ((store_once_restore_each_iteration Unit (fun n => n) wExec).2.2.2
    wNet wExec wExecB 0 rfl rfl rfl rfl).1

/-- The run primitive used by the counterexample to claim C7: the
simulation leaves the hidden state and the potentials alone and makes
every segment spike once, as recorded by the monitor counts. -/
def spikingRunF : Net Unit → Net Unit :=
  fun n => { n with counts := fun _ => 1 }

/-- Counterexample to claim C7 as stated: the loop body does mutate state
outside the local variables v0, step and estimates: one iteration changes
the live network state (here the spike monitor counts go from 0 to 1). -/
theorem loop_mutates_network_counterexample :
    ¬ ((runBlock spikingRunF 0 wExec).net = wExec.net) := by
  intro h
  have h0 := congrArg (fun m => m.counts 0) h
  simp only [runBlock, execProg, iterBlock, List.foldl_cons, List.foldl_nil,
    execInstr, spikingRunF, wExec, wNet, Option.getD_some] at h0
  exact one_ne_zero h0

/-- Claim C7 (amended): the script is a single sequential instruction
stream, and the loop body mutates, besides the local variables v0, step
and estimates, only the live network state: the snapshot taken by store is
never written by the loop, and the effect of the body on the locals is a
function of the snapshot and the locals alone, so no state outside them
carries information between iterations. -/
theorem loop_body_frame (ρ : Type) (runF : Net ρ → Net ρ) (i : ℕ)
    (e e2 : Exec ρ) (n : Net ρ) (hs : e.saved = some n) (hs2 : e2.saved = some n)
    (hv : e.v0 = e2.v0) (hstep : e.step = e2.step)
    (hest : e.estimates = e2.estimates) :
    (runBlock runF i e).saved = e.saved ∧
    (runBlock runF i e).v0 = (runBlock runF i e2).v0 ∧
    (runBlock runF i e).step = (runBlock runF i e2).step ∧
    (runBlock runF i e).estimates = (runBlock runF i e2).estimates := by
  obtain ⟨h1, h2, -⟩ := runBlock_congr runF i e e2 n hs hs2 hv hstep
  refine ⟨runBlock_saved runF i e, h1, h2, ?_⟩
  simp only [runBlock, execProg, iterBlock, List.foldl_cons, List.foldl_nil,
    execInstr, hs, hs2, hv, hstep, hest, Option.getD_some]

/-- Witness for the amended claim C7: at the concrete states wExec and
wExecB the snapshot is preserved and the local results agree. -/
theorem loop_body_frame_witness :
    (runBlock spikingRunF 0 wExec).saved = wExec.saved ∧
    (runBlock spikingRunF 0 wExec).v0 = (runBlock spikingRunF 0 wExecB).v0 ∧
    (runBlock spikingRunF 0 wExec).step = (runBlock spikingRunF 0 wExecB).step ∧
    (runBlock spikingRunF 0 wExec).estimates
      = (runBlock spikingRunF 0 wExecB).estimates :=
  loop_body_frame Unit spikingRunF 0 wExec wExecB wNet rfl rfl rfl rfl rfl

end Bisection

namespace Pyloric

/-!
### The pyloric circuit notebook

The three-population model of the crustacean stomatogastric ganglion.
The neuron group is declared with three neurons labelled by the constants
ABPD, LP and PY; its equations give two activity-dependent conductances s
and g driven through the variable z by the difference between the
normalized Calcium signal and a per-neuron target, and the reset statement
increments Ca by 0.1 at every spike.  SI units: volts, amperes, siemens,
seconds. -/

def ABPD : ℤ := 0

def LP : ℤ := 1

def PY : ℤ := 2

/-- Number of neurons in the circuit group, from NeuronGroup(3, ...). -/
def circuitSize : ℕ := 3

/-- Per-neuron labels, from circuit.label = [ABPD, LP, PY]. -/
def label : Fin 3 → ℤ := ![ABPD, LP, PY]

/-- Per-neuron Calcium targets, from
circuit.Ca_target = [0.048, 0.0384, 0.06]. -/
def Ca_target : Fin 3 → ℝ := ![0.048, 0.0384, 0.06]

/-- Source constant Delta_T = 17.5*mV. -/
def Delta_T : ℝ := 0.0175

/-- Source constant S = 2*nA/Delta_T. -/
noncomputable def Sconst : ℝ := 2e-9 / Delta_T

/-- Source constant G = 28.5*nS. -/
def Gconst : ℝ := 28.5e-9

/-- Source constant tau_z = 5*second. -/
def tau_z : ℝ := 5

/-- The conductance s of the model equations:
s = S*(1 - tanh(z)) : siemens. -/
noncomputable def sCond (z : ℝ) : ℝ := Sconst * (1 - Real.tanh z)

/-- The conductance g of the model equations:
g = G*(1 + tanh(z)) : siemens. -/
noncomputable def gCond (z : ℝ) : ℝ := Gconst * (1 + Real.tanh z)

/-- Right-hand side of dz/dt = tanh(Ca - Ca_target)/tau_z. -/
noncomputable def zDeriv (ca caTarget : ℝ) : ℝ := Real.tanh (ca - caTarget) / tau_z

/-- Effect on Ca of the reset statement reset=(Ca += 0.1), executed at
every spike. -/
noncomputable def caReset (ca : ℝ) : ℝ := ca + 0.1

theorem tanh_pos_iff (x : ℝ) : 0 < Real.tanh x ↔ 0 < x := by
  rw [Real.tanh_eq_sinh_div_cosh]
  rw [div_pos_iff]
  constructor
  · rintro (⟨h, -⟩ | ⟨-, hc⟩)
    · exact Real.sinh_pos_iff.mp h
    · exact absurd (Real.cosh_pos x) (not_lt_of_lt hc)
  · intro h
    exact Or.inl ⟨Real.sinh_pos_iff.mpr h, Real.cosh_pos x⟩

theorem tanh_neg_iff (x : ℝ) : Real.tanh x < 0 ↔ x < 0 := by
  constructor
  · intro h
    by_contra hc
    rcases eq_or_lt_of_le (not_lt.mp hc) with he | hl
    · rw [← he, Real.tanh_zero] at h
      exact lt_irrefl 0 h
    · exact absurd ((tanh_pos_iff x).mpr hl) (not_lt_of_lt h)
  · intro h
    have := (tanh_pos_iff (-x)).mpr (by linarith)
    rw [Real.tanh_neg] at this
    linarith

/-- Claim C8: the pyloric-circuit model is a group of exactly three
neurons carrying the three distinct labels ABPD, LP and PY, with
per-neuron Calcium targets; its conductances follow
s = S*(1 - tanh(z)) and g = G*(1 + tanh(z)); z grows exactly when the
Calcium signal exceeds the per-neuron target and shrinks exactly when it
falls below it (dz/dt = tanh(Ca - Ca_target)/tau_z with tau_z positive);
and each spike increments Ca by 0.1 through the reset statement. -/
theorem pyloric_three_neuron_model :
    circuitSize = 3 ∧
    (label 0 = ABPD ∧ label 1 = LP ∧ label 2 = PY) ∧
    (label 0 ≠ label 1 ∧ label 0 ≠ label 2 ∧ label 1 ≠ label 2) ∧
    (Ca_target 0 = 0.048 ∧ Ca_target 1 = 0.0384 ∧ Ca_target 2 = 0.06) ∧
    (∀ z : ℝ, sCond z = Sconst * (1 - Real.tanh z)) ∧
    (∀ z : ℝ, gCond z = Gconst * (1 + Real.tanh z)) ∧
    (∀ ca caTarget : ℝ, (0 < zDeriv ca caTarget ↔ caTarget < ca) ∧
      (zDeriv ca caTarget < 0 ↔ ca < caTarget)) ∧
    (∀ ca : ℝ, caReset ca = ca + 0.1) := by
  refine ⟨rfl, ⟨rfl, rfl, rfl⟩, ⟨by decide, by decide, by decide⟩,
    ⟨rfl, rfl, rfl⟩, fun z => rfl, fun z => rfl, ?_, fun ca => rfl⟩
  intro ca caTarget
  have htau : (0 : ℝ) < tau_z := by norm_num [tau_z]
  constructor
  · rw [zDeriv, div_pos_iff]
    constructor
    · rintro (⟨h, -⟩ | ⟨-, hc⟩)
      · have := (tanh_pos_iff (ca - caTarget)).mp h
        linarith
      · exact absurd htau (not_lt_of_lt hc)
    · intro h
      exact Or.inl ⟨(tanh_pos_iff (ca - caTarget)).mpr (by linarith), htau⟩
  · rw [zDeriv, div_neg_iff]
    constructor
    · rintro (⟨-, hc⟩ | ⟨h, -⟩)
      · exact absurd htau (not_lt_of_lt hc)
      · have := (tanh_neg_iff (ca - caTarget)).mp h
        linarith
    · intro h
      exact Or.inr ⟨(tanh_neg_iff (ca - caTarget)).mpr (by linarith), htau⟩

/-!
### Synapses of the pyloric circuit

The connect conditions and the masked conductance assignments.  A synapse
pair is (presynaptic, postsynaptic).  Conductances are in microsiemens and
the rate constants k_2 in inverse milliseconds; a value of none means the
synapse does not exist (for pairs outside the connect condition) or was
never assigned. -/

/-- The fast-synapse connect condition, from
connect(label_pre != label_post and not (label_pre == PY and
label_post == ABPD)). -/
def fastCond (p : Fin 3 × Fin 3) : Bool :=
  decide (label p.1 ≠ label p.2) &&
    !(decide (label p.1 = PY) && decide (label p.2 = ABPD))

/-- The pairs for which a fast synapse is created. -/
def fastPairs : Finset (Fin 3 × Fin 3) :=
  Finset.univ.filter (fun p => fastCond p = true)

/-- The slow-synapse connect condition, from
connect(label_pre == ABPD and label_post != ABPD). -/
def slowCond (p : Fin 3 × Fin 3) : Bool :=
  decide (label p.1 = ABPD) && decide (label p.2 ≠ ABPD)

/-- The pairs for which a slow synapse is created. -/
def slowPairs : Finset (Fin 3 × Fin 3) :=
  Finset.univ.filter (fun p => slowCond p = true)

/-- Sequential masked assignments on the synapse variables: each entry is
a condition on the pair together with the value assigned to the pairs
satisfying it; later assignments win. -/
def assignFold (asgns : List ((Fin 3 × Fin 3 → Bool) × ℚ))
    (p : Fin 3 × Fin 3) : Option ℚ :=
  asgns.foldl (fun acc a => if a.1 p then some a.2 else acc) none

/-- The five masked g_fast assignments, in source order, values in
microsiemens. -/
def gFastAssigns : List ((Fin 3 × Fin 3 → Bool) × ℚ) :=
  [(fun p => decide (label p.1 = ABPD) && decide (label p.2 = LP), 15 / 1000),
   (fun p => decide (label p.1 = ABPD) && decide (label p.2 = PY), 5 / 1000),
   (fun p => decide (label p.1 = LP) && decide (label p.2 = ABPD), 10 / 1000),
   (fun p => decide (label p.1 = LP) && decide (label p.2 = PY), 20 / 1000),
   (fun p => decide (label p.1 = PY) && decide (label p.2 = LP), 5 / 1000)]

/-- The two masked g_slow assignments, in source order, values in
microsiemens. -/
def gSlowAssigns : List ((Fin 3 × Fin 3 → Bool) × ℚ) :=
  [(fun p => decide (label p.2 = LP), 25 / 1000),
   (fun p => decide (label p.2 = PY), 15 / 1000)]

/-- The two masked k_2 assignments, in source order, values in inverse
milliseconds. -/
def k2Assigns : List ((Fin 3 × Fin 3 → Bool) × ℚ) :=
  [(fun p => decide (label p.2 = LP), 30 / 1000),
   (fun p => decide (label p.2 = PY), 8 / 1000)]

/-- g_fast of a pair: the masked assignments act on the synapses the
connect call created. -/
def gFast (p : Fin 3 × Fin 3) : Option ℚ :=
  if fastCond p then assignFold gFastAssigns p else none

/-- g_slow of a pair. -/
def gSlow (p : Fin 3 × Fin 3) : Option ℚ :=
  if slowCond p then assignFold gSlowAssigns p else none

/-- k_2 of a pair. -/
def k2Val (p : Fin 3 × Fin 3) : Option ℚ :=
  if slowCond p then assignFold k2Assigns p else none

/-- Claim C10: the fast-synapse condition creates exactly the five ordered
pairs ABPD to LP, ABPD to PY, LP to ABPD, LP to PY and PY to LP, which is
exactly the set of pairs carrying a nonzero g_fast; the slow-synapse
condition creates exactly the pairs ABPD to LP and ABPD to PY, exactly the
pairs carrying g_slow and k_2 values; so every created synapse receives an
explicit conductance assignment. -/
theorem synapse_connectivity :
    fastPairs = {(0, 1), (0, 2), (1, 0), (1, 2), (2, 1)} ∧
    (∀ p : Fin 3 × Fin 3, p ∈ fastPairs ↔ (gFast p).isSome = true) ∧
    (gFast (0, 1) = some (15 / 1000) ∧ gFast (0, 2) = some (5 / 1000) ∧
      gFast (1, 0) = some (10 / 1000) ∧ gFast (1, 2) = some (20 / 1000) ∧
      gFast (2, 1) = some (5 / 1000)) ∧
    ((15 : ℚ) / 1000 ≠ 0 ∧ (5 : ℚ) / 1000 ≠ 0 ∧ (10 : ℚ) / 1000 ≠ 0 ∧
      (20 : ℚ) / 1000 ≠ 0) ∧
    slowPairs = {(0, 1), (0, 2)} ∧
    (∀ p : Fin 3 × Fin 3, p ∈ slowPairs ↔ (gSlow p).isSome = true) ∧
    (∀ p : Fin 3 × Fin 3, p ∈ slowPairs ↔ (k2Val p).isSome = true) ∧
    (gSlow (0, 1) = some (25 / 1000) ∧ gSlow (0, 2) = some (15 / 1000) ∧
      k2Val (0, 1) = some (30 / 1000) ∧ k2Val (0, 2) = some (8 / 1000)) := by
  refine ⟨by decide, by decide, ⟨rfl, rfl, rfl, rfl, rfl⟩,
    ⟨by norm_num, by norm_num, by norm_num, by norm_num⟩,
    by decide, by decide, by decide, rfl, rfl, rfl, rfl⟩

end Pyloric
